import Mathlib

/-!
Verification of `custom_components/monitor_docker/helpers.py`.

Modelling conventions used throughout this development:
* Python floats are idealized as exact rationals (`ℚ`);
* Python `None`-able values are `Option`s, and Python truthiness of a
  float-or-None value (`None` and `0.0` are falsy) is made explicit;
* a Python statement that raises an uncaught exception (`ZeroDivisionError`,
  `KeyError`) is modelled as an `Except`/`Option` error result;
* Python dicts are association lists that preserve insertion order, which is
  how `dict` iteration order behaves and what the event tables rely on;
* the `await`ed coroutine calls inside the event consumer are modelled as
  running to completion inline (sequential semantics): `_run_docker_events`
  awaits `_container_create_destroy` directly, so no event is processed while
  a reconciliation batch is running.
-/

namespace MonitorDocker

/-- Idealized semantics of the Python builtin `round` to an integer:
round half to even (banker's rounding), i.e. `round(x)` / `round(x, None)`. -/
def rndHalfEven (x : ℚ) : ℤ :=
  let f := ⌊x⌋
  let r := x - f
  if r < 1/2 then f
  else if 1/2 < r then f + 1
  else if Even f then f else f + 1

/-- Python `round(x, ndigits)` on our rational idealization of floats;
`none` plays the role of `ndigits=None` (round to the nearest integer). -/
def pyRound (x : ℚ) (ndigits : Option ℕ) : ℚ :=
  match ndigits with
  | none => (rndHalfEven x : ℚ)
  | some n => (rndHalfEven (x * 10 ^ n) : ℚ) / 10 ^ n

/-- helpers.py `toKB`: `precision = None if precision == 0 else precision;
return round(value / (1024 ** 1), precision)`. -/
def toKB (value : ℚ) (precision : ℕ) : ℚ :=
  pyRound (value / 1024 ^ 1) (if precision = 0 then none else some precision)

/-- helpers.py `toMB`: `precision = None if precision == 0 else precision;
return round(value / (1024 ** 2), precision)`. -/
def toMB (value : ℚ) (precision : ℕ) : ℚ :=
  pyRound (value / 1024 ^ 2) (if precision = 0 then none else some precision)

theorem abs_rndHalfEven_sub (x : ℚ) : |(rndHalfEven x : ℚ) - x| ≤ 1 / 2 := by
  have h0 : (⌊x⌋ : ℚ) ≤ x := Int.floor_le x
  have h1 : x < (⌊x⌋ : ℚ) + 1 := Int.lt_floor_add_one x
  unfold rndHalfEven
  simp only []
  split
  · rw [abs_sub_comm, abs_of_nonneg (by linarith)]
    linarith
  · split
    · push_cast
      rw [abs_of_nonneg (by linarith)]
      linarith
    · rename_i hlt hgt
      push_neg at hlt hgt
      have heq : x - (⌊x⌋ : ℚ) = 1 / 2 := le_antisymm hgt hlt
      split
      · rw [abs_sub_comm, abs_of_nonneg (by linarith)]
        linarith
      · push_cast
        rw [abs_of_nonneg (by linarith)]
        linarith

theorem pyRound_eq_div (y : ℚ) (p : ℕ) :
    pyRound y (if p = 0 then none else some p)
      = (rndHalfEven (y * 10 ^ p) : ℚ) / 10 ^ p := by
  by_cases hp : p = 0
  · subst hp; simp [pyRound]
  · simp [pyRound, hp]

theorem abs_pyRound_sub (y : ℚ) (p : ℕ) :
    |pyRound y (if p = 0 then none else some p) - y| ≤ 1 / (2 * 10 ^ p) := by
  rw [pyRound_eq_div]
  have hpow : (0 : ℚ) < 10 ^ p := by positivity
  have h := abs_rndHalfEven_sub (y * 10 ^ p)
  have hrw : (rndHalfEven (y * 10 ^ p) : ℚ) / 10 ^ p - y
      = ((rndHalfEven (y * 10 ^ p) : ℚ) - y * 10 ^ p) / 10 ^ p := by
    field_simp
    ring
  rw [hrw, abs_div, abs_of_pos hpow, div_le_div_iff₀ hpow (by positivity)]
  calc |(rndHalfEven (y * 10 ^ p) : ℚ) - y * 10 ^ p| * (2 * 10 ^ p)
      ≤ (1 / 2) * (2 * 10 ^ p) := by
        apply mul_le_mul_of_nonneg_right h (by positivity)
    _ = 10 ^ p := by ring
    _ ≤ 1 * (10 ^ p * 1) := by ring_nf; simp
    _ = 1 * 10 ^ p := by ring

/-- Claim C9 (counterexample). The claim says rounding precision 0 means no
rounding at all (the exact quotient is returned). On the code, precision 0 is
mapped to Python `ndigits=None`, which rounds to the nearest integer:
`toKB(1536, 0)` returns `round(1.5) = 2`, not the exact quotient `1.5`. -/
theorem c9_precision_zero_rounds_counterexample :
    toKB 1536 0 = 2 ∧ toKB 1536 0 ≠ 1536 / 1024 := by
  have h : toKB 1536 0 = 2 := by
    norm_num [toKB, pyRound, rndHalfEven, Int.floor_eq_iff]
  exact ⟨h, by rw [h]; norm_num⟩

/-- Claim C9 (amended): the unit conversions divide bytes by 1024 (KB) and
1024² (MB); precision 0 rounds the quotient to the nearest integer (Python
`round(x, None)` half-to-even), and any positive precision `p` rounds to `p`
decimals. In all cases the result is an integer multiple of `10^(-p)` within
`1/(2*10^p)` of the exact quotient (`p = 0` giving the nearest-integer case). -/
theorem c9_unit_conversion_rounding :
    ∀ (v : ℚ) (p : ℕ),
      (∃ k : ℤ, toKB v p = (k : ℚ) / 10 ^ p ∧ |toKB v p - v / 1024| ≤ 1 / (2 * 10 ^ p))
      ∧ (∃ m : ℤ, toMB v p = (m : ℚ) / 10 ^ p ∧ |toMB v p - v / 1024 ^ 2| ≤ 1 / (2 * 10 ^ p)) := by
  intro v p
  refine ⟨⟨rndHalfEven (v / 1024 ^ 1 * 10 ^ p), ?_, ?_⟩,
          ⟨rndHalfEven (v / 1024 ^ 2 * 10 ^ p), ?_, ?_⟩⟩
  · exact pyRound_eq_div (v / 1024 ^ 1) p
  · have := abs_pyRound_sub (v / 1024 ^ 1) p
    simpa [toKB] using this
  · exact pyRound_eq_div (v / 1024 ^ 2) p
  · have := abs_pyRound_sub (v / 1024 ^ 2) p
    simpa [toMB] using this

theorem rndHalfEven_intCast (k : ℤ) : rndHalfEven (k : ℚ) = k := by
  unfold rndHalfEven
  simp only [Int.floor_intCast, sub_self]
  norm_num

theorem pyRound_intCast (k : ℤ) (n : ℕ) : pyRound (k : ℚ) (some n) = k := by
  have h : (k : ℚ) * 10 ^ n = ((k * 10 ^ n : ℤ) : ℚ) := by push_cast; ring
  simp only [pyRound]
  rw [h, rndHalfEven_intCast]
  push_cast
  field_simp

/-- CPU percentage computation of `_run_container_stats` (helpers.py lines
1206-1220), with the raw-payload parsing abstracted into the arguments:
`cpu_old` is `self._cpu_old` (`none` models the empty dict of the first
iteration), `total` and `system` are `cpu_new["total"]` and
`cpu_new["system"]`, `online_cpus` is `cpu_stats["online_cpus"]`. The result
is `cpu_stats.get("total")`; on the first iteration the key is never set, so
the result is `none`. `round(0.0, PRECISION)` equals `0` for every value of
the `PRECISION` constant, so it is written as the literal `0`. -/
def cpuPercent (prec : ℕ) (cpu_old : Option (ℚ × ℚ)) (total system online_cpus : ℚ) :
    Option ℚ :=
  match cpu_old with
  | none => none
  | some (oldTotal, oldSystem) =>
      let cpu_delta := total - oldTotal
      let system_delta := system - oldSystem
      if 0 < cpu_delta ∧ 0 < system_delta then
        some (pyRound (cpu_delta / system_delta * online_cpus * 100) (some prec))
      else
        some 0

/-- Python division on our rational idealization of floats: raises
`ZeroDivisionError` (modelled as `Except.error ()`) when the divisor is zero,
for floats just as for ints. -/
def pyDiv (a b : ℚ) : Except Unit ℚ :=
  if b = 0 then Except.error () else Except.ok (a / b)

/-- helpers.py lines 1456-1461: the 1-CPU percentage.
`if "online_cpus" in cpu_stats and cpu_stats.get("total") is not None:
stats[...] = round(cpu_stats.get("total") / cpu_stats["online_cpus"], prec)`.
`cpu_total` is `cpu_stats.get("total")`; `online_cpus` is
`cpu_stats["online_cpus"]` when the key is present, else `none`. When the
guard passes, the code divides with no zero test on `online_cpus`;
`Except.error ()` models the resulting uncaught `ZeroDivisionError`.
`Except.ok none` means the statistic is simply not set (read back as `None`). -/
def oneCpuPercent (prec : ℕ) (cpu_total : Option ℚ) (online_cpus : Option ℚ) :
    Except Unit (Option ℚ) :=
  match online_cpus, cpu_total with
  | some oc, some t =>
      match pyDiv t oc with
      | Except.error e => Except.error e
      | Except.ok v => Except.ok (some (pyRound v (some prec)))
  | _, _ => Except.ok none

/-- helpers.py lines 1388-1409: the network speed computation.
`network_old` is `self._network_old` (`none` on the first sample: no speed
keys are set). `read` is the sample timestamp in seconds, `total_tx` and
`total_rx` the interface byte counters summed over `raw["networks"]`.
With a previous sample the code computes `tx/tim` and `rx/tim` where
`tim` is the elapsed time in seconds, with no zero test; a zero elapsed time
is an uncaught `ZeroDivisionError` (the surrounding handler catches only
`KeyError`), modelled as `Except.error ()`. -/
def networkSpeed (precKB : ℕ) (network_old : Option (ℚ × ℚ × ℚ))
    (read total_tx total_rx : ℚ) : Except Unit (Option (ℚ × ℚ)) :=
  match network_old with
  | none => Except.ok none
  | some (oldRead, oldTx, oldRx) =>
      let tx := total_tx - oldTx
      let rx := total_rx - oldRx
      let tim := read - oldRead
      match pyDiv tx tim, pyDiv rx tim with
      | Except.ok vtx, Except.ok vrx =>
          Except.ok (some (toKB vtx precKB, toKB vrx precKB))
      | _, _ => Except.error ()

/-- helpers.py lines 1222-1252: the cpu-family consecutive error counter over
one stats tick (`self._cpu_error = 0` on success, `+= 1` on `KeyError`). -/
def cpuErrorStep (cpu_error : ℕ) (success : Bool) : ℕ :=
  if success then 0 else cpu_error + 1

/-- helpers.py lines 1280-1312: the memory-family consecutive error counter
over one stats tick (reset to 0 on success, `+= 1` on `KeyError`/`TypeError`). -/
def memoryErrorStep (memory_error : ℕ) (success : Bool) : ℕ :=
  if success then 0 else memory_error + 1

/-- helpers.py lines 1379-1449: the network-family error bookkeeping over one
stats tick. The block runs only while network monitoring is `available`; on a
`KeyError` the counter is incremented and monitoring is disabled once the
counter exceeds 5; on success the counter is left unchanged — the source has
no reset of `self._network_error` anywhere. -/
def networkErrorStep (network_error : ℕ) (available : Bool) (success : Bool) :
    ℕ × Bool :=
  if available then
    if success then (network_error, available)
    else
      let e := network_error + 1
      (e, if e > 5 then false else available)
  else (network_error, available)

/-- Claim C7: `cpuPercent` returns `none` with no previous sample; with a
previous sample it returns the rounded `(Δtotal/Δsystem)*onlineCpus*100` when
both deltas are positive and `0.0` otherwise; on the spec's example
(`prevTotal=100, prevSystem=1000, newTotal=150, newSystem=1100, onlineCpus=4`)
it returns exactly `200`, for every configured rounding precision. -/
theorem c7_cpu_percent :
    (∀ prec t s o, cpuPercent prec none t s o = none)
    ∧ (∀ prec pt ps t s o, 0 < t - pt → 0 < s - ps →
        cpuPercent prec (some (pt, ps)) t s o
          = some (pyRound ((t - pt) / (s - ps) * o * 100) (some prec)))
    ∧ (∀ prec pt ps t s o, ¬(0 < t - pt ∧ 0 < s - ps) →
        cpuPercent prec (some (pt, ps)) t s o = some 0)
    ∧ (∀ prec, cpuPercent prec (some (100, 1000)) 150 1100 4 = some 200) := by
  refine ⟨fun prec t s o => rfl, ?_, ?_, ?_⟩
  · intro prec pt ps t s o h1 h2
    simp [cpuPercent, h1, h2]
  · intro prec pt ps t s o h
    simp only [cpuPercent, if_neg h]
  · intro prec
    have h : ((150 : ℚ) - 100) / (1100 - 1000) * 4 * 100 = ((200 : ℤ) : ℚ) := by
      norm_num
    simp only [cpuPercent]
    rw [if_pos (by norm_num)]
    rw [h, pyRound_intCast]
    norm_num

/-- Claim C7 witness: the positive-deltas case at the spec's concrete sample. -/
theorem c7_cpu_percent_witness :
    cpuPercent 2 (some (100, 1000)) 150 1100 4
      = some (pyRound ((150 - 100) / (1100 - 1000) * 4 * 100) (some 2)) :=
  c7_cpu_percent.2.1 2 100 1000 150 1100 4 (by norm_num) (by norm_num)

/-- Claim C4 (code bug): the claim (and spec P3) require that a zero
`onlineCpus` yields `None` and a zero elapsed time skips the speed update,
never raising. In the source neither division is guarded: with a previous CPU
sample and `online_cpus == 0` the total is `0.0` (not `None`), so the 1-CPU
guard passes and `round(0.0/0, prec)` raises `ZeroDivisionError`; likewise two
samples with the same `read` timestamp make `tim == 0` and `tx/tim` raises.
Only the `None`-operand cases behave as claimed. -/
theorem c4_division_by_zero_raises :
    oneCpuPercent 2 (some 0) (some 0) = Except.error ()
    ∧ networkSpeed 2 (some (1000, 500, 600)) 1000 800 900 = Except.error ()
    ∧ (∀ prec oc, oneCpuPercent prec none oc = Except.ok none)
    ∧ (∀ prec t, oneCpuPercent prec t none = Except.ok none)
    ∧ (∀ prec r tx rx, networkSpeed prec none r tx rx = Except.ok none) := by
  refine ⟨?_, ?_, ?_, ?_, ?_⟩
  · simp [oneCpuPercent, pyDiv]
  · simp [networkSpeed, pyDiv]
  · intro prec oc
    cases oc <;> rfl
  · intro prec t
    rfl
  · intro prec r tx rx
    rfl

/-- Claim C8 (counterexample): after 5 consecutive network failures from a
fresh container, monitoring is still enabled (the claim says it is disabled
after 5), and a network success leaves a nonzero error counter unchanged (the
claim says it resets to zero). -/
theorem c8_network_error_counterexample :
    (fun st : ℕ × Bool => networkErrorStep st.1 st.2 false)^[5] (0, true) = (5, true)
    ∧ networkErrorStep 3 true true = (3, true) := by
  exact ⟨rfl, rfl⟩

/-- Claim C8 (amended): the cpu and memory error counters increment on a
family-specific failure and reset to zero on the next success of that family;
the network error counter increments on failure but is never reset on success
(it is cumulative, not consecutive), and network monitoring is disabled once
the counter exceeds 5 — i.e. on the 6th network failure overall. -/
theorem c8_error_counters :
    (∀ e, cpuErrorStep e true = 0 ∧ cpuErrorStep e false = e + 1)
    ∧ (∀ e, memoryErrorStep e true = 0 ∧ memoryErrorStep e false = e + 1)
    ∧ (∀ e, networkErrorStep e true true = (e, true))
    ∧ (∀ e, networkErrorStep e true false = (e + 1, decide (e + 1 ≤ 5)))
    ∧ (fun st : ℕ × Bool => networkErrorStep st.1 st.2 false)^[6] (0, true)
        = (6, false) := by
  refine ⟨fun e => ⟨rfl, rfl⟩, fun e => ⟨rfl, rfl⟩, fun e => rfl, ?_, ?_⟩
  · intro e
    simp only [networkErrorStep, if_pos trivial]
    by_cases h : e + 1 > 5
    · simp [h, Nat.not_le.mpr h]
    · simp [h, Nat.not_lt.mp h]
  · rfl

/-- State the memory spike filter carries across polling ticks:
`self._memory_prev`, `self._memory_prev_breach`, `self._memory_percent_prev`
(helpers.py lines 931-932 and 1364-1375). -/
structure MemFilterState where
  memory_prev : Option ℚ
  memory_prev_breach : Bool
  memory_percent_prev : Option ℚ
  deriving Repr, DecidableEq

/-- Result of one spike-filter step: the reported `memory_stats["usage"]` and
`memory_stats["usage_percent"]` after the filter, plus the updated state. -/
structure MemFilterResult where
  usage : Option ℚ
  usage_percent : Option ℚ
  state : MemFilterState
  deriving Repr, DecidableEq

/-- Python truthiness of a float-or-None value: `None` and `0.0` are falsy,
every other float is truthy. -/
def truthy : Option ℚ → Bool
  | none => false
  | some v => v ≠ 0

/-- helpers.py lines 1323-1375: the memory spike filter. `memChange` is
`self._memChange`, `usage` and `usage_percent` are the freshly computed
`memory_stats` fields (possibly `None` after a memory parse error). The first
`if` computes `mem_breach` from `abs((usage / prev) - 1) * 100` when the new
usage and the stored previous usage are truthy and the previous sample was not
a breach; its `else` resets `self._memory_prev_breach`. The second `if`
either suppresses the sample (report the stored previous values, remember the
new ones, breach flag set) or passes it through (report and remember the new
values). -/
def memSpikeFilter (memChange : ℚ) (st : MemFilterState)
    (usage usage_percent : Option ℚ) : MemFilterResult :=
  let step1 : Bool × Bool :=
    if truthy usage && truthy st.memory_prev && !st.memory_prev_breach then
      let mem_diff := |usage.getD 0 / st.memory_prev.getD 0 - 1| * 100
      (decide (memChange < 100) && decide (memChange ≤ mem_diff),
       st.memory_prev_breach)
    else
      (false, false)
  let mem_breach := step1.1
  let memory_prev_breach := step1.2
  if mem_breach && !memory_prev_breach then
    { usage := st.memory_prev
      usage_percent := st.memory_percent_prev
      state := { memory_prev := usage, memory_prev_breach := mem_breach,
                 memory_percent_prev := usage_percent } }
  else
    { usage := usage
      usage_percent := usage_percent
      state := { memory_prev := usage, memory_prev_breach := mem_breach,
                 memory_percent_prev := usage_percent } }

/-- Modelled from the claim's wording (amended): the condition under which a
sample is suppressed — both the new and the stored previous reading are
present and nonzero, the previous sample was not itself a suppressed breach,
the threshold is below 100 and the relative change reaches it. -/
def specSuppressCondition (memChange : ℚ) (st : MemFilterState)
    (usage : Option ℚ) : Prop :=
  ∃ uv pv, usage = some uv ∧ uv ≠ 0 ∧ st.memory_prev = some pv ∧ pv ≠ 0 ∧
    st.memory_prev_breach = false ∧ memChange < 100 ∧
    memChange ≤ |uv / pv - 1| * 100

theorem memSpikeFilter_eq (mc : ℚ) (st : MemFilterState) (u upct : Option ℚ) :
    memSpikeFilter mc st u upct =
      if truthy u && truthy st.memory_prev && !st.memory_prev_breach
          && decide (mc < 100)
          && decide (mc ≤ |u.getD 0 / st.memory_prev.getD 0 - 1| * 100) then
        { usage := st.memory_prev
          usage_percent := st.memory_percent_prev
          state := { memory_prev := u, memory_prev_breach := true,
                     memory_percent_prev := upct } }
      else
        { usage := u
          usage_percent := upct
          state := { memory_prev := u, memory_prev_breach := false,
                     memory_percent_prev := upct } } := by
  cases h1 : truthy u
  <;> cases h2 : truthy st.memory_prev
  <;> cases h3 : st.memory_prev_breach
  <;> by_cases h4 : mc < 100
  <;> by_cases h5 : mc ≤ |Option.getD u 0 / Option.getD st.memory_prev 0 - 1| * 100
  <;> simp [memSpikeFilter, h1, h2, h3, h4, h5]

theorem memSpikeFilter_suppress (memChange : ℚ) (st : MemFilterState)
    (usage usage_percent : Option ℚ)
    (h : specSuppressCondition memChange st usage) :
    memSpikeFilter memChange st usage usage_percent =
      { usage := st.memory_prev
        usage_percent := st.memory_percent_prev
        state := { memory_prev := usage, memory_prev_breach := true,
                   memory_percent_prev := usage_percent } } := by
  obtain ⟨uv, pv, hu, huv, hp, hpv, hb, h100, hdiff⟩ := h
  rw [memSpikeFilter_eq, if_pos]
  simp [truthy, hu, hp, huv, hpv, hb, h100, hdiff]

theorem memSpikeFilter_pass (memChange : ℚ) (st : MemFilterState)
    (usage usage_percent : Option ℚ)
    (h : ¬ specSuppressCondition memChange st usage) :
    memSpikeFilter memChange st usage usage_percent =
      { usage := usage
        usage_percent := usage_percent
        state := { memory_prev := usage, memory_prev_breach := false,
                   memory_percent_prev := usage_percent } } := by
  rw [memSpikeFilter_eq, if_neg]
  intro hg
  simp only [Bool.and_eq_true, decide_eq_true_eq, Bool.not_eq_true'] at hg
  obtain ⟨⟨⟨⟨htu, htp⟩, hb⟩, h100⟩, hdiff⟩ := hg
  obtain ⟨uv, hu⟩ : ∃ uv, usage = some uv := by
    cases usage with
    | none => simp [truthy] at htu
    | some v => exact ⟨v, rfl⟩
  obtain ⟨pv, hp⟩ : ∃ pv, st.memory_prev = some pv := by
    cases hmp : st.memory_prev with
    | none => rw [hmp] at htp; simp [truthy] at htp
    | some v => exact ⟨v, rfl⟩
  rw [hu] at htu
  rw [hp] at htp
  simp only [truthy, decide_eq_true_eq] at htu htp
  rw [hu, hp] at hdiff
  simp only [Option.getD_some] at hdiff
  exact h ⟨uv, pv, hu, htu, hp, htp, hb, h100, hdiff⟩

/-- Claim C1 (counterexample). The claim's case split is: suppress whenever a
previous reading exists, the previous sample was not a breach, the threshold
is below 100 and `|new/prev - 1| * 100 >= threshold`. At new reading `0` with
`prev = 100`, threshold `50`, no prior breach, all of those conditions hold
(`|0/100 - 1| * 100 = 100 >= 50`), so the claim predicts reported value `100`
with breach flag `true`; the code instead treats a zero (falsy) reading as
bypassing the filter and reports `0` with breach flag `false`. -/
theorem c1_zero_reading_counterexample :
    (50 : ℚ) < 100 ∧ (50 : ℚ) ≤ |(0 : ℚ) / 100 - 1| * 100
    ∧ memSpikeFilter 50 ⟨some 100, false, some 10⟩ (some 0) (some 0)
        = ⟨some 0, some 0, ⟨some 0, false, some 0⟩⟩
    ∧ (memSpikeFilter 50 ⟨some 100, false, some 10⟩ (some 0) (some 0)).usage
        ≠ some 100 := by
  have h : ¬ specSuppressCondition 50 ⟨some 100, false, some 10⟩ (some 0) := by
    rintro ⟨uv, pv, huv_eq, huv, -, -, -, -, -⟩
    exact huv (by injection huv_eq with h; exact h.symm)
  have hpass := memSpikeFilter_pass 50 ⟨some 100, false, some 10⟩
    (some 0) (some 0) h
  refine ⟨by norm_num, by norm_num, hpass, ?_⟩
  rw [hpass]
  simp

/-- Claim C1 (amended): the spike filter suppresses exactly when the new
reading and the stored previous reading are both present and nonzero, the
previous sample was not itself a suppressed breach, the threshold is below 100
and `|new/prev - 1| * 100 >= threshold`; it then reports the previous value
and carries `(prev := new value, breach := true)`. In every other case —
including a zero or absent new or previous reading — it reports the new value
and carries `(prev := new value, breach := false)`. In particular, for
threshold 50, previous 100, no prior breach, a new reading 200 is reported as
100 with state `(200, true)`, and a following reading 210 is reported as 210
with the breach flag reset. -/
theorem c1_spike_filter :
    (∀ (mc : ℚ) (st : MemFilterState) (u upct : Option ℚ),
      specSuppressCondition mc st u →
        memSpikeFilter mc st u upct =
          { usage := st.memory_prev
            usage_percent := st.memory_percent_prev
            state := { memory_prev := u, memory_prev_breach := true,
                       memory_percent_prev := upct } })
    ∧ (∀ (mc : ℚ) (st : MemFilterState) (u upct : Option ℚ),
      ¬ specSuppressCondition mc st u →
        memSpikeFilter mc st u upct =
          { usage := u
            usage_percent := upct
            state := { memory_prev := u, memory_prev_breach := false,
                       memory_percent_prev := upct } })
    ∧ memSpikeFilter 50 ⟨some 100, false, some 40⟩ (some 200) (some 80)
        = ⟨some 100, some 40, ⟨some 200, true, some 80⟩⟩
    ∧ memSpikeFilter 50 ⟨some 200, true, some 80⟩ (some 210) (some 84)
        = ⟨some 210, some 84, ⟨some 210, false, some 84⟩⟩ := by
  refine ⟨memSpikeFilter_suppress, memSpikeFilter_pass, ?_, ?_⟩
  · exact memSpikeFilter_suppress 50 ⟨some 100, false, some 40⟩
      (some 200) (some 80)
      ⟨200, 100, rfl, by norm_num, rfl, by norm_num, rfl, by norm_num,
        by norm_num⟩
  · refine memSpikeFilter_pass 50 ⟨some 200, true, some 80⟩
      (some 210) (some 84) ?_
    rintro ⟨uv, pv, -, -, -, -, hb, -, -⟩
    exact Bool.true_eq_false.mp hb

/-- Claim C1 witness: the suppress case instantiated at the spec's example. -/
theorem c1_spike_filter_witness :
    memSpikeFilter 50 ⟨some 100, false, some 40⟩ (some 200) (some 80)
      = ⟨some 100, some 40, ⟨some 200, true, some 80⟩⟩ :=
  c1_spike_filter.1 50 ⟨some 100, false, some 40⟩ (some 200) (some 80)
    ⟨200, 100, rfl, by norm_num, rfl, by norm_num, rfl, by norm_num,
      by norm_num⟩

/-- Claim C10: a new memory reading of 0 or `None`, or a stored previous
reading of 0 or `None`, bypasses the breach computation: the breach flag is
reset, the new value is reported and stored as the new baseline. Consequently
suppression cannot trigger on a zero/missing reading, and (second conjunct)
not immediately after one either: whatever arrives next is reported as-is. -/
theorem c10_zero_reading_bypasses :
    ∀ (mc : ℚ) (st : MemFilterState) (u upct : Option ℚ),
      ((u = none ∨ u = some 0 ∨ st.memory_prev = none ∨ st.memory_prev = some 0) →
        memSpikeFilter mc st u upct =
          { usage := u
            usage_percent := upct
            state := { memory_prev := u, memory_prev_breach := false,
                       memory_percent_prev := upct } })
      ∧ ((u = none ∨ u = some 0) → ∀ (mc' : ℚ) (u' upct' : Option ℚ),
          (memSpikeFilter mc' (memSpikeFilter mc st u upct).state u' upct').usage
            = u') := by
  have hnospec : ∀ (mc : ℚ) (st : MemFilterState) (u : Option ℚ),
      (u = none ∨ u = some 0 ∨ st.memory_prev = none ∨ st.memory_prev = some 0) →
      ¬ specSuppressCondition mc st u := by
    rintro mc st u h ⟨uv, pv, hu, huv, hp, hpv, -, -, -⟩
    rcases h with h | h | h | h
    · rw [h] at hu; exact Option.noConfusion hu
    · rw [h] at hu; exact huv (by injection hu with h2; exact h2.symm)
    · rw [h] at hp; exact Option.noConfusion hp
    · rw [h] at hp; exact hpv (by injection hp with h2; exact h2.symm)
  intro mc st u upct
  constructor
  · intro h
    exact memSpikeFilter_pass mc st u upct (hnospec mc st u h)
  · intro hu mc' u' upct'
    have h1 : memSpikeFilter mc st u upct =
        { usage := u
          usage_percent := upct
          state := { memory_prev := u, memory_prev_breach := false,
                     memory_percent_prev := upct } } :=
      memSpikeFilter_pass mc st u upct
        (hnospec mc st u (hu.imp id Or.inl))
    rw [h1]
    have h2 := memSpikeFilter_pass mc'
      ⟨u, false, upct⟩ u' upct'
      (hnospec mc' ⟨u, false, upct⟩ u' (Or.inr (Or.inr hu)))
    rw [h2]

/-- Claim C10 witness: a zero reading with a nonzero stored previous reading
passes through unsuppressed, and the following reading is reported as-is. -/
theorem c10_zero_reading_bypasses_witness :
    memSpikeFilter 50 ⟨some 100, false, some 10⟩ (some 0) (some 1)
      = ⟨some 0, some 1, ⟨some 0, false, some 1⟩⟩
    ∧ (memSpikeFilter 60
        (memSpikeFilter 50 ⟨some 100, false, some 10⟩ (some 0) (some 1)).state
        (some 500) (some 50)).usage = some 500 :=
  ⟨(c10_zero_reading_bypasses 50 ⟨some 100, false, some 10⟩ (some 0)
      (some 1)).1 (Or.inr (Or.inl rfl)),
   (c10_zero_reading_bypasses 50 ⟨some 100, false, some 10⟩ (some 0)
      (some 1)).2 (Or.inr rfl) 60 (some 500) (some 50)⟩

/-- Ordered association table from container name to debounce counter,
modelling the insertion-ordered Python dicts `self._event_create` and
`self._event_destroy` (helpers.py lines 104-105). -/
abbrev EventTable := List (String × ℕ)

/-- The key view of an event table (the dict's keys, in insertion order). -/
def keys (t : EventTable) : List String := t.map Prod.fst

/-- State shared by `_run_docker_events` and `_container_create_destroy`:
the registry keys of `self._containers` (their mapped-to monitor objects do
not matter for the event protocol) and the two pending-event tables. -/
structure EvState where
  containers : List String
  event_create : EventTable
  event_destroy : EventTable
  deriving Repr, DecidableEq

/-- helpers.py `_container_add` (lines 653-683): a no-op (logged error) when
the name is already monitored; otherwise the registry gains the key — the
assignment `self._containers[cname] = DockerContainerAPI(...)` happens before
any awaiting, so the key is inserted unconditionally on this path. -/
def containerAdd (cs : List String) (n : String) : List String :=
  if n ∈ cs then cs else cs ++ [n]

/-- helpers.py `_container_remove` (lines 686-694): deletes the name from the
registry when present; otherwise only logs. -/
def containerRemove (cs : List String) (n : String) : List String :=
  cs.erase n

/-- One pass of the `for cname in self._event_create` loop of
`_container_create_destroy` (lines 626-632): entries are scanned in insertion
order; an entry with counter ≤ 2 is incremented; the first entry with counter
> 2 is removed and returned as the create to execute, ending the scan — the
fired entry and all entries after it are left un-incremented. -/
def tickCreate : EventTable → EventTable × Option String
  | [] => ([], none)
  | (n, c) :: rest =>
      if c > 2 then (rest, some n)
      else
        let r := tickCreate rest
        ((n, c + 1) :: r.1, r.2)

/-- One iteration of the `while` loop of `_container_create_destroy`
(lines 624-641): scan the create table; if a create fired, run
`_container_add` and end the tick; otherwise (the `for ... else`) run
`_container_remove` for every pending destroy and clear the destroy table. -/
def tick (s : EvState) : EvState :=
  match tickCreate s.event_create with
  | (create', some n) =>
      { containers := containerAdd s.containers n
        event_create := create'
        event_destroy := s.event_destroy }
  | (create', none) =>
      { containers := s.event_destroy.foldl
          (fun cs e => containerRemove cs e.1) s.containers
        event_create := create'
        event_destroy := [] }

/-- Weight of a single debounce counter, used only for termination fuel. -/
def entryWeight (c : ℕ) : ℕ := 4 - min c 4

/-- Weight of an event table, used only for termination fuel. -/
def tableWeight (t : EventTable) : ℕ :=
  (t.map (fun e => entryWeight e.2 + 1)).sum

/-- Termination fuel for the `while` loop of `_container_create_destroy`. -/
def evMeasure (s : EvState) : ℕ :=
  tableWeight s.event_create + (if s.event_destroy = [] then 0 else 1)

/-- Fuel-indexed unfolding of the `while self._event_create or
self._event_destroy` loop of `_container_create_destroy`. -/
def drainF : ℕ → EvState → EvState
  | 0, s => s
  | fuel + 1, s =>
      if s.event_create = [] ∧ s.event_destroy = [] then s
      else drainF fuel (tick s)

/-- The whole of `_container_create_destroy` run to completion: `evMeasure` ticks always
suffice (proved below), so this is the loop's exit state. -/
def drain (s : EvState) : EvState := drainF (evMeasure s) s

theorem entryWeight_succ_le (c : ℕ) : entryWeight (c + 1) ≤ entryWeight c := by
  unfold entryWeight
  omega

theorem entryWeight_succ_lt (c : ℕ) (h : c ≤ 2) :
    entryWeight (c + 1) < entryWeight c := by
  unfold entryWeight
  omega

theorem tickCreate_none (t : EventTable) (t' : EventTable)
    (h : tickCreate t = (t', none)) :
    t' = t.map (fun e => (e.1, e.2 + 1)) ∧ ∀ e ∈ t, e.2 ≤ 2 := by
  induction t generalizing t' with
  | nil =>
      injection h with h1 h2
      subst h1
      simp
  | cons hd rest ih =>
      obtain ⟨n, c⟩ := hd
      by_cases hc : c > 2
      · simp [tickCreate, hc] at h
      · rcases hr : tickCreate rest with ⟨r1, r2⟩
        simp only [tickCreate, if_neg hc, hr] at h
        injection h with h1 h2
        subst h2
        obtain ⟨hmap, hbound⟩ := ih r1 hr
        subst h1
        refine ⟨by simp [hmap], ?_⟩
        intro e he
        rcases List.mem_cons.mp he with he | he
        · rw [he]
          omega
        · exact hbound e he

theorem tickCreate_fire_mem (t t' : EventTable) (n : String)
    (h : tickCreate t = (t', some n)) :
    ∃ c, (n, c) ∈ t ∧ 2 < c := by
  induction t generalizing t' with
  | nil => simp [tickCreate] at h
  | cons hd rest ih =>
      obtain ⟨m, c⟩ := hd
      by_cases hc : c > 2
      · simp only [tickCreate, if_pos hc] at h
        injection h with h1 h2
        obtain rfl : m = n := by injection h2
        exact ⟨c, List.mem_cons_self _ _, hc⟩
      · rcases hr : tickCreate rest with ⟨r1, r2⟩
        simp only [tickCreate, if_neg hc, hr] at h
        injection h with h1 h2
        subst h2
        obtain ⟨c', hmem, hc'⟩ := ih r1 hr
        exact ⟨c', List.mem_cons_of_mem _ hmem, hc'⟩

theorem tickCreate_keys_subset (t : EventTable) :
    ∀ m, m ∈ keys (tickCreate t).1 → m ∈ keys t := by
  induction t with
  | nil => simp [tickCreate]
  | cons hd rest ih =>
      obtain ⟨n, c⟩ := hd
      intro m hm
      by_cases hc : c > 2
      · simp only [tickCreate, if_pos hc] at hm
        exact List.mem_cons_of_mem _ hm
      · rcases hr : tickCreate rest with ⟨r1, r2⟩
        simp only [tickCreate, if_neg hc, hr, keys, List.map_cons] at hm
        rcases List.mem_cons.mp hm with hm | hm
        · exact hm ▸ List.mem_cons_self _ _
        · refine List.mem_cons_of_mem _ (ih m ?_)
          rw [hr]
          exact hm

theorem tickCreate_fire_weight (t t' : EventTable) (n : String)
    (h : tickCreate t = (t', some n)) :
    tableWeight t' < tableWeight t := by
  induction t generalizing t' with
  | nil => simp [tickCreate] at h
  | cons hd rest ih =>
      obtain ⟨m, c⟩ := hd
      by_cases hc : c > 2
      · simp only [tickCreate, if_pos hc] at h
        injection h with h1 h2
        subst h1
        simp only [tableWeight, List.map_cons, List.sum_cons]
        omega
      · rcases hr : tickCreate rest with ⟨r1, r2⟩
        simp only [tickCreate, if_neg hc, hr] at h
        injection h with h1 h2
        subst h2
        have hlt := ih r1 hr
        subst h1
        simp only [tableWeight, List.map_cons, List.sum_cons] at hlt ⊢
        have := entryWeight_succ_le c
        omega

theorem tableWeight_map_incr_lt (t : EventTable) (hne : t ≠ [])
    (hb : ∀ e ∈ t, e.2 ≤ 2) :
    tableWeight (t.map (fun e => (e.1, e.2 + 1))) < tableWeight t := by
  induction t with
  | nil => exact absurd rfl hne
  | cons hd rest ih =>
      obtain ⟨n, c⟩ := hd
      have hc : c ≤ 2 := hb (n, c) (List.mem_cons_self _ _)
      rcases eq_or_ne rest [] with hrest | hrest
      · subst hrest
        simp only [tableWeight, List.map_cons, List.map_nil, List.sum_cons,
          List.sum_nil]
        have := entryWeight_succ_lt c hc
        omega
      · have hrec := ih hrest (fun e he => hb e (List.mem_cons_of_mem _ he))
        simp only [tableWeight, List.map_cons, List.sum_cons] at hrec ⊢
        have := entryWeight_succ_lt c hc
        omega

theorem tableWeight_eq_zero (t : EventTable) (h : tableWeight t = 0) :
    t = [] := by
  cases t with
  | nil => rfl
  | cons hd rest =>
      simp only [tableWeight, List.map_cons, List.sum_cons] at h
      omega

theorem tick_eq_fire (s : EvState) (t' : EventTable) (n : String)
    (htc : tickCreate s.event_create = (t', some n)) :
    tick s = { containers := containerAdd s.containers n
               event_create := t'
               event_destroy := s.event_destroy } := by
  simp only [tick, htc]

theorem tick_eq_none (s : EvState) (t' : EventTable)
    (htc : tickCreate s.event_create = (t', none)) :
    tick s = { containers := s.event_destroy.foldl
                 (fun cs e => containerRemove cs e.1) s.containers
               event_create := t'
               event_destroy := [] } := by
  simp only [tick, htc]

theorem tick_measure_lt (s : EvState)
    (h : ¬ (s.event_create = [] ∧ s.event_destroy = [])) :
    evMeasure (tick s) < evMeasure s := by
  rcases htc : tickCreate s.event_create with ⟨t', fired⟩
  cases fired with
  | some n =>
      have hw := tickCreate_fire_weight _ _ _ htc
      rw [tick_eq_fire s t' n htc]
      simp only [evMeasure]
      omega
  | none =>
      obtain ⟨hmap, hb⟩ := tickCreate_none _ _ htc
      rw [tick_eq_none s t' htc]
      rcases eq_or_ne s.event_create [] with hc | hc
      · have ht' : t' = [] := by rw [hmap, hc]; rfl
        have hd : s.event_destroy ≠ [] := fun hdd => h ⟨hc, hdd⟩
        simp [evMeasure, ht', hc, if_neg hd, tableWeight]
      · have hw : tableWeight t' < tableWeight s.event_create := by
          rw [hmap]
          exact tableWeight_map_incr_lt _ hc hb
        simp only [evMeasure, if_true]
        by_cases hdd : s.event_destroy = []
        · rw [if_pos hdd]
          omega
        · rw [if_neg hdd]
          omega

theorem drainF_drained (fuel : ℕ) :
    ∀ s : EvState, evMeasure s ≤ fuel →
      (drainF fuel s).event_create = [] ∧ (drainF fuel s).event_destroy = [] := by
  induction fuel with
  | zero =>
      intro s hs
      have h0 : evMeasure s = 0 := Nat.le_zero.mp hs
      have hc : tableWeight s.event_create = 0 := by
        unfold evMeasure at h0
        omega
      have hd : s.event_destroy = [] := by
        unfold evMeasure at h0
        by_contra hne
        rw [if_neg hne] at h0
        omega
      exact ⟨tableWeight_eq_zero _ hc, hd⟩
  | succ fuel ih =>
      intro s hs
      by_cases hdone : s.event_create = [] ∧ s.event_destroy = []
      · simp only [drainF, if_pos hdone]
        exact hdone
      · simp only [drainF, if_neg hdone]
        have hlt := tick_measure_lt s hdone
        exact ih (tick s) (by omega)

theorem drain_drained (s : EvState) :
    (drain s).event_create = [] ∧ (drain s).event_destroy = [] :=
  drainF_drained (evMeasure s) s le_rfl

/-- Python's `taskcreated = True if self._event_create or self._event_destroy
else False` (helpers.py lines 480-483, 505-508, 581-585): dict truthiness is
non-emptiness. -/
def taskCreated (s : EvState) : Bool :=
  decide (s.event_create ≠ [] ∨ s.event_destroy ≠ [])

/-- The `create` branch of `_run_docker_events` (lines 479-502): if the name
is not pending-create it is added with counter 0 (otherwise only an error is
logged); the pending-destroy table is never consulted. The awaited
`_container_create_destroy` is modelled as running inline to completion. -/
def handleCreate (s : EvState) (cname : String) : EvState :=
  let taskcreated := taskCreated s
  let s1 :=
    if cname ∈ keys s.event_create then s
    else { s with event_create := s.event_create ++ [(cname, 0)] }
  if s1.event_create ≠ [] ∧ taskcreated = false then drain s1 else s1

/-- The `destroy` branch of `_run_docker_events` (lines 504-535): a name
still pending-create has its create cancelled; otherwise the name is added to
pending-destroy with counter 0 unless already there. -/
def handleDestroy (s : EvState) (cname : String) : EvState :=
  let taskcreated := taskCreated s
  let s1 :=
    if cname ∈ keys s.event_create then
      { s with event_create := s.event_create.eraseP (fun e => e.1 == cname) }
    else if cname ∉ keys s.event_destroy then
      { s with event_destroy := s.event_destroy ++ [(cname, 0)] }
    else s
  if s1.event_destroy ≠ [] ∧ taskcreated = false then drain s1 else s1

/-- The `rename` branch of `_run_docker_events` (lines 536-608); `oname` is
the old name with its leading slash already stripped. The branch does nothing
unless the old name is currently monitored. Returns `none` when the branch
raises an uncaught `KeyError`: when `oname` is pending-create the code runs
`del self._event_create[cname]` — the NEW name — which raises if `cname` is
not a key (the outer `except` then ends the event loop, state unchanged at
the raise point). -/
def handleRename (s : EvState) (oname cname : String) : Option EvState :=
  if oname ∈ s.containers then
    let s1? : Option EvState :=
      if oname ∈ keys s.event_create then
        if cname ∈ keys s.event_create then
          some { s with
                 event_create := s.event_create.eraseP (fun e => e.1 == cname) }
        else none
      else if oname ∉ keys s.event_destroy then
        some { s with event_destroy := s.event_destroy ++ [(oname, 0)] }
      else some s
    match s1? with
    | none => none
    | some s1 =>
        let s2 := if s1.event_destroy ≠ [] then drain s1 else s1
        let taskcreated := taskCreated s2
        let s3 :=
          if cname ∈ keys s2.event_create then s2
          else { s2 with event_create := s2.event_create ++ [(cname, 0)] }
        some (if s3.event_create ≠ [] ∧ taskcreated = false then drain s3 else s3)
  else some s

/-- The container lifecycle events consumed by `_run_docker_events`. -/
inductive DockerEvent where
  | create (cname : String)
  | destroy (cname : String)
  | rename (oname cname : String)
  deriving Repr, DecidableEq

/-- Dispatch of one event; `none` models an uncaught exception. -/
def handleEvent (s : EvState) : DockerEvent → Option EvState
  | DockerEvent.create c => some (handleCreate s c)
  | DockerEvent.destroy c => some (handleDestroy s c)
  | DockerEvent.rename o c => handleRename s o c

/-- Runs `_run_docker_events` over a finite trace: events are consumed
strictly in order; an uncaught exception ends the loop with the state as it
stood. -/
def processEvents (s : EvState) : List DockerEvent → EvState
  | [] => s
  | e :: es =>
      match handleEvent s e with
      | some s' => processEvents s' es
      | none => s

/-- Initial state after startup enumeration: some registry content, both
pending tables empty. -/
def initState (containers : List String) : EvState :=
  { containers := containers, event_create := [], event_destroy := [] }

theorem mem_containerAdd_self (cs : List String) (n : String) :
    n ∈ containerAdd cs n := by
  unfold containerAdd
  split
  · assumption
  · simp

theorem mem_containerAdd (cs : List String) (m n : String)
    (h : n ∈ containerAdd cs m) : n ∈ cs ∨ n = m := by
  unfold containerAdd at h
  split at h
  · exact Or.inl h
  · simpa using h

theorem not_mem_containerAdd (cs : List String) (m n : String)
    (h1 : n ∉ cs) (h2 : n ≠ m) : n ∉ containerAdd cs m := by
  intro hmem
  rcases mem_containerAdd cs m n hmem with h | h
  · exact h1 h
  · exact h2 h

theorem mem_foldl_containerRemove (l : EventTable) :
    ∀ (cs : List String) (n : String),
      n ∈ l.foldl (fun cs e => containerRemove cs e.1) cs → n ∈ cs := by
  induction l with
  | nil => intro cs n h; exact h
  | cons hd rest ih =>
      intro cs n h
      simp only [List.foldl_cons] at h
      exact List.mem_of_mem_erase (ih _ n h)

theorem keys_map_incr (t : EventTable) :
    keys (t.map (fun e => (e.1, e.2 + 1))) = keys t := by
  induction t with
  | nil => rfl
  | cons hd rest ih =>
      simp only [keys, List.map_cons] at ih ⊢
      rw [ih]

theorem keys_eraseP_not_mem (t : EventTable) (n : String)
    (hnodup : (keys t).Nodup) :
    n ∉ keys (t.eraseP (fun e => e.1 == n)) := by
  induction t with
  | nil => simp [keys]
  | cons hd rest ih =>
      obtain ⟨m, c⟩ := hd
      simp only [keys, List.map_cons, List.nodup_cons] at hnodup
      by_cases hm : m = n
      · subst hm
        rw [List.eraseP_cons_of_pos]
        · exact hnodup.1
        · simp
      · rw [List.eraseP_cons_of_neg]
        · simp only [keys, List.map_cons, List.mem_cons]
          rintro (h | h)
          · exact hm h.symm
          · exact ih hnodup.2 h
        · simp [hm]

theorem handleCreate_fresh (cs : List String) (n : String) :
    handleCreate ⟨cs, [], []⟩ n = ⟨containerAdd cs n, [], []⟩ := rfl

theorem handleDestroy_fresh (cs : List String) (n : String) :
    handleDestroy ⟨cs, [], []⟩ n = ⟨containerRemove cs n, [], []⟩ := rfl

theorem handleRename_found (cs : List String) (oname cname : String)
    (hold : oname ∈ cs) :
    handleRename ⟨cs, [], []⟩ oname cname
      = some ⟨containerAdd (containerRemove cs oname) cname, [], []⟩ := by
  unfold handleRename
  rw [if_pos hold]
  rfl

theorem state_eta (s : EvState) (hc : s.event_create = [])
    (hd : s.event_destroy = []) : s = ⟨s.containers, [], []⟩ := by
  cases s
  simp only at hc hd
  rw [hc, hd]

theorem handleCreate_drained (s : EvState) (c : String)
    (hc : s.event_create = []) (hd : s.event_destroy = []) :
    (handleCreate s c).event_create = []
    ∧ (handleCreate s c).event_destroy = [] := by
  rw [state_eta s hc hd, handleCreate_fresh]
  exact ⟨rfl, rfl⟩

theorem handleDestroy_drained (s : EvState) (c : String)
    (hc : s.event_create = []) (hd : s.event_destroy = []) :
    (handleDestroy s c).event_create = []
    ∧ (handleDestroy s c).event_destroy = [] := by
  rw [state_eta s hc hd, handleDestroy_fresh]
  exact ⟨rfl, rfl⟩

theorem handleRename_drained (s : EvState) (o c : String)
    (hc : s.event_create = []) (hd : s.event_destroy = []) :
    ∃ s', handleRename s o c = some s'
      ∧ s'.event_create = [] ∧ s'.event_destroy = [] := by
  by_cases hmem : o ∈ s.containers
  · refine ⟨⟨containerAdd (containerRemove s.containers o) c, [], []⟩, ?_, rfl, rfl⟩
    have hs := state_eta s hc hd
    rw [hs] at hmem ⊢
    exact handleRename_found s.containers o c hmem
  · exact ⟨s, by unfold handleRename; rw [if_neg hmem], hc, hd⟩

theorem processEvents_drained (evs : List DockerEvent) :
    ∀ s : EvState, s.event_create = [] → s.event_destroy = [] →
      (processEvents s evs).event_create = []
      ∧ (processEvents s evs).event_destroy = [] := by
  induction evs with
  | nil => intro s hc hd; exact ⟨hc, hd⟩
  | cons e es ih =>
      intro s hc hd
      cases e with
      | create c =>
          simp only [processEvents, handleEvent]
          obtain ⟨h1, h2⟩ := handleCreate_drained s c hc hd
          exact ih _ h1 h2
      | destroy c =>
          simp only [processEvents, handleEvent]
          obtain ⟨h1, h2⟩ := handleDestroy_drained s c hc hd
          exact ih _ h1 h2
      | rename o c =>
          obtain ⟨s', hs', h1, h2⟩ := handleRename_drained s o c hc hd
          simp only [processEvents, handleEvent, hs']
          exact ih _ h1 h2

theorem tickCreate_all_le (t : EventTable) (h : ∀ e ∈ t, e.2 ≤ 2) :
    tickCreate t = (t.map (fun e => (e.1, e.2 + 1)), none) := by
  induction t with
  | nil => rfl
  | cons hd rest ih =>
      obtain ⟨n, c⟩ := hd
      have hc : ¬ c > 2 := by
        have := h (n, c) (List.mem_cons_self _ _)
        omega
      have hrest := ih (fun e he => h e (List.mem_cons_of_mem _ he))
      simp only [tickCreate, if_neg hc, hrest, List.map_cons]

theorem tickCreate_fire_split (pre post : EventTable) (n : String) (c : ℕ)
    (hpre : ∀ e ∈ pre, e.2 ≤ 2) (hc : 2 < c) :
    tickCreate (pre ++ (n, c) :: post)
      = (pre.map (fun e => (e.1, e.2 + 1)) ++ post, some n) := by
  induction pre with
  | nil => simp [tickCreate, hc]
  | cons hd rest ih =>
      obtain ⟨m, cm⟩ := hd
      have hcm : ¬ cm > 2 := by
        have := hpre (m, cm) (List.mem_cons_self _ _)
        omega
      have hrest := ih (fun e he => hpre e (List.mem_cons_of_mem _ he))
      simp only [List.cons_append, tickCreate, if_neg hcm, List.append_eq,
        hrest, List.map_cons]

theorem tick_new_container (s : EvState) (n : String)
    (h : n ∈ (tick s).containers) :
    n ∈ s.containers ∨ ∃ c, (n, c) ∈ s.event_create ∧ 2 < c := by
  rcases htc : tickCreate s.event_create with ⟨t', fired⟩
  cases fired with
  | some m =>
      rw [tick_eq_fire s t' m htc] at h
      rcases mem_containerAdd _ _ _ h with h | h
      · exact Or.inl h
      · subst h
        exact Or.inr (tickCreate_fire_mem _ _ _ htc)
  | none =>
      rw [tick_eq_none s t' htc] at h
      exact Or.inl (mem_foldl_containerRemove _ _ _ h)

theorem tick_keys_subset (s : EvState) (n : String)
    (h : n ∈ keys (tick s).event_create) : n ∈ keys s.event_create := by
  rcases htc : tickCreate s.event_create with ⟨t', fired⟩
  have hsub := tickCreate_keys_subset s.event_create n
  rw [htc] at hsub
  cases fired with
  | some m =>
      rw [tick_eq_fire s t' m htc] at h
      exact hsub h
  | none =>
      rw [tick_eq_none s t' htc] at h
      exact hsub h

theorem tick_not_mem (s : EvState) (n : String)
    (h1 : n ∉ s.containers) (h2 : n ∉ keys s.event_create) :
    n ∉ (tick s).containers ∧ n ∉ keys (tick s).event_create := by
  constructor
  · intro hmem
    rcases tick_new_container s n hmem with h | ⟨c, hc, -⟩
    · exact h1 h
    · exact h2 (List.mem_map_of_mem Prod.fst hc)
  · intro hmem
    exact h2 (tick_keys_subset s n hmem)

theorem drainF_not_mem (fuel : ℕ) :
    ∀ (s : EvState) (n : String),
      n ∉ s.containers → n ∉ keys s.event_create →
      n ∉ (drainF fuel s).containers := by
  induction fuel with
  | zero => intro s n h1 h2; exact h1
  | succ fuel ih =>
      intro s n h1 h2
      by_cases hdone : s.event_create = [] ∧ s.event_destroy = []
      · simp only [drainF, if_pos hdone]
        exact h1
      · simp only [drainF, if_neg hdone]
        obtain ⟨h1', h2'⟩ := tick_not_mem s n h1 h2
        exact ih (tick s) n h1' h2'

theorem drain_not_mem (s : EvState) (n : String)
    (h1 : n ∉ s.containers) (h2 : n ∉ keys s.event_create) :
    n ∉ (drain s).containers :=
  drainF_not_mem (evMeasure s) s n h1 h2

theorem handleCreate_destroy_eq (s : EvState) (c : String) :
    (handleCreate s c).event_destroy = s.event_destroy := by
  have hdrain : ∀ s1 : EvState, taskCreated s = false →
      (drain s1).event_destroy = s.event_destroy := by
    intro s1 htask
    have hdestroy : s.event_destroy = [] := by
      by_contra hne
      unfold taskCreated at htask
      simp [hne] at htask
    rw [(drain_drained _).2, hdestroy]
  simp only [handleCreate]
  by_cases hmem : c ∈ keys s.event_create
  · rw [if_pos hmem]
    split
    · rename_i hcond
      exact hdrain s hcond.2
    · rfl
  · rw [if_neg hmem]
    split
    · rename_i hcond
      exact hdrain _ hcond.2
    · rfl

/-- Claim C2 (counterexample). The claim says a create event for a name
currently pending-destroy removes that name from pending-destroy. The create
branch of `_run_docker_events` never touches `self._event_destroy`: applied to
a state where "a" is pending-destroy, the create handler leaves "a" pending in
both tables. -/
theorem c2_create_keeps_pending_destroy_counterexample :
    "a" ∈ keys (handleCreate ⟨[], [], [("a", 0)]⟩ "a").event_create
    ∧ "a" ∈ keys (handleCreate ⟨[], [], [("a", 0)]⟩ "a").event_destroy := by
  constructor <;> decide

/-- Claim C2 (amended): the create handler leaves pending-destroy unchanged
(third conjunct) rather than removing the name from it. Disjointness
nevertheless holds along real runs: in the sequential semantics every handler
drains both tables before returning, so after each processed event both tables
are empty (first conjunct) — hence disjoint — and each reconciliation tick
preserves disjointness of the tables mid-batch (second conjunct). -/
theorem c2_tables_disjoint :
    (∀ (cs : List String) (evs : List DockerEvent),
        (processEvents (initState cs) evs).event_create = []
        ∧ (processEvents (initState cs) evs).event_destroy = [])
    ∧ (∀ s : EvState,
        (∀ n, n ∈ keys s.event_create → n ∉ keys s.event_destroy) →
        ∀ n, n ∈ keys (tick s).event_create → n ∉ keys (tick s).event_destroy)
    ∧ (∀ (s : EvState) (c : String),
        (handleCreate s c).event_destroy = s.event_destroy) := by
  refine ⟨?_, ?_, handleCreate_destroy_eq⟩
  · intro cs evs
    exact processEvents_drained evs (initState cs) rfl rfl
  · intro s hdisj n hc
    have hc' := tick_keys_subset s n hc
    rcases htc : tickCreate s.event_create with ⟨t', fired⟩
    cases fired with
    | some m =>
        rw [tick_eq_fire s t' m htc]
        exact hdisj n hc'
    | none =>
        rw [tick_eq_none s t' htc]
        simp [keys]

/-- Claim C2 witness: the disjointness-preservation conjunct applied to a
concrete disjoint state and name. -/
theorem c2_tables_disjoint_witness :
    "a" ∉ keys (tick ⟨[], [("a", 0)], [("b", 0)]⟩).event_destroy :=
  c2_tables_disjoint.2.1 ⟨[], [("a", 0)], [("b", 0)]⟩
    (by
      intro n hn hd
      simp only [keys, List.map_cons, List.map_nil, List.mem_singleton] at hn hd
      rw [hn] at hd
      exact absurd hd (by decide))
    "a" (by decide)

/-- Claim C3 (counterexample). The claim says a rename is equivalent to
destroy(old) followed by create(new) and that afterwards the registry contains
"new". When the old name is not in the registry the rename branch does
nothing, while destroy(old); create(new) adds "new": the two disagree, and the
renamed-to name is never added. -/
theorem c3_rename_missing_old_counterexample :
    handleRename (initState []) "old" "new" = some (initState [])
    ∧ handleCreate (handleDestroy (initState []) "old") "new"
        = ⟨["new"], [], []⟩
    ∧ some (initState []) ≠ some (⟨["new"], [], []⟩ : EvState) := by
  refine ⟨rfl, rfl, ?_⟩
  simp [initState]

/-- Claim C3 (amended): provided the old name is currently in the registry,
processing a rename equals processing destroy(old) then create(new); the
resulting state has empty pending tables and a registry that contains the new
name and (when the two names differ and the registry has no duplicate keys)
no longer contains the old one. -/
theorem c3_rename_equiv (cs : List String) (old new : String)
    (hnodup : cs.Nodup) (hold : old ∈ cs) (hne : old ≠ new) :
    handleRename (initState cs) old new
      = some (handleCreate (handleDestroy (initState cs) old) new)
    ∧ handleRename (initState cs) old new
      = some ⟨containerAdd (containerRemove cs old) new, [], []⟩
    ∧ new ∈ containerAdd (containerRemove cs old) new
    ∧ old ∉ containerAdd (containerRemove cs old) new := by
  have h1 : handleRename (initState cs) old new
      = some ⟨containerAdd (containerRemove cs old) new, [], []⟩ :=
    handleRename_found cs old new hold
  refine ⟨?_, h1, mem_containerAdd_self _ _, ?_⟩
  · rw [h1, show initState cs = (⟨cs, [], []⟩ : EvState) from rfl,
      handleDestroy_fresh, handleCreate_fresh]
  · refine not_mem_containerAdd _ _ _ ?_ hne
    intro hmem
    exact ((List.Nodup.mem_erase_iff hnodup).mp hmem).1 rfl

/-- Claim C3 witness: the rename/destroy-create equivalence at a concrete
two-container registry. -/
theorem c3_rename_equiv_witness :
    handleRename (initState ["old", "x"]) "old" "new"
      = some (handleCreate (handleDestroy (initState ["old", "x"]) "old") "new")
    ∧ "new" ∈ containerAdd (containerRemove ["old", "x"] "old") "new"
    ∧ "old" ∉ containerAdd (containerRemove ["old", "x"] "old") "new" :=
  ⟨(c3_rename_equiv ["old", "x"] "old" "new" (by decide) (by decide)
      (by decide)).1,
   (c3_rename_equiv ["old", "x"] "old" "new" (by decide) (by decide)
      (by decide)).2.2.1,
   (c3_rename_equiv ["old", "x"] "old" "new" (by decide) (by decide)
      (by decide)).2.2.2⟩

/-- Claim C5: (1) a reconciliation tick only ever adds a container whose
pending-create counter already exceeds 2; (2) a full batch never adds a name
that is neither monitored nor pending-create; (3) a destroy event for a name
still pending-create cancels the create — the registry and the pending-destroy
table are untouched and the name leaves pending-create — so no add for it is
ever performed. -/
theorem c5_debounce_and_cancel :
    (∀ (s : EvState) (n : String),
        n ∈ (tick s).containers →
        n ∈ s.containers ∨ ∃ c, (n, c) ∈ s.event_create ∧ 2 < c)
    ∧ (∀ (s : EvState) (n : String),
        n ∉ s.containers → n ∉ keys s.event_create →
        n ∉ (drain s).containers)
    ∧ (∀ (s : EvState) (n : String),
        n ∈ keys s.event_create → (keys s.event_create).Nodup →
        (handleDestroy s n).containers = s.containers
        ∧ n ∉ keys (handleDestroy s n).event_create
        ∧ (handleDestroy s n).event_destroy = s.event_destroy) := by
  refine ⟨tick_new_container, drain_not_mem, ?_⟩
  intro s n hmem hnodup
  have hne : s.event_create ≠ [] := by
    intro h
    rw [h] at hmem
    exact absurd hmem (by simp [keys])
  have htask : taskCreated s = true := by
    unfold taskCreated
    simp [hne]
  simp only [handleDestroy]
  rw [if_pos hmem]
  rw [if_neg (fun hcon => by rw [htask] at hcon; exact Bool.true_eq_false.mp hcon.2)]
  exact ⟨rfl, keys_eraseP_not_mem s.event_create n hnodup, rfl⟩

/-- Claim C5 witness: cancelling a pending create by a destroy event at a
concrete state. -/
theorem c5_debounce_and_cancel_witness :
    (handleDestroy ⟨["x"], [("web_1", 1)], [("y", 2)]⟩ "web_1").containers
      = ["x"]
    ∧ "web_1" ∉ keys
        (handleDestroy ⟨["x"], [("web_1", 1)], [("y", 2)]⟩ "web_1").event_create
    ∧ (handleDestroy ⟨["x"], [("web_1", 1)], [("y", 2)]⟩ "web_1").event_destroy
      = [("y", 2)] :=
  c5_debounce_and_cancel.2.2 ⟨["x"], [("web_1", 1)], [("y", 2)]⟩ "web_1"
    (by decide) (by decide)

/-- Claim C6 (counterexample). The claim says every pending-create entry's
counter is incremented on every tick. On a tick where an entry fires
(counter > 2), entries after it are left untouched: from
`[("a", 3), ("b", 0)]` the tick fires "a" and leaves "b" at counter 0, not 1. -/
theorem c6_no_increment_after_fire_counterexample :
    tick ⟨[], [("a", 3), ("b", 0)], []⟩ = ⟨["a"], [("b", 0)], []⟩
    ∧ (tick ⟨[], [("a", 3), ("b", 0)], []⟩).event_create ≠ [("b", 1)] := by
  constructor <;> decide

/-- Claim C6 (amended): on a tick, pending-create entries are scanned in
iteration order and incremented until the first entry whose counter exceeds 2;
that entry is removed and its add executed — at most one per tick — and the
tick ends with the fired entry and all later entries un-incremented and the
pending-destroy table untouched. If no entry fires, every counter is
incremented and all pending-destroy entries are executed and the table cleared
in that same tick. -/
theorem c6_tick_behaviour :
    (∀ s : EvState, (∀ e ∈ s.event_create, e.2 ≤ 2) →
        tick s = ⟨s.event_destroy.foldl
            (fun cs e => containerRemove cs e.1) s.containers,
          s.event_create.map (fun e => (e.1, e.2 + 1)), []⟩)
    ∧ (∀ (s : EvState) (pre post : EventTable) (n : String) (c : ℕ),
        s.event_create = pre ++ (n, c) :: post →
        (∀ e ∈ pre, e.2 ≤ 2) → 2 < c →
        tick s = ⟨containerAdd s.containers n,
          pre.map (fun e => (e.1, e.2 + 1)) ++ post,
          s.event_destroy⟩) := by
  constructor
  · intro s hall
    exact tick_eq_none s _ (tickCreate_all_le s.event_create hall)
  · intro s pre post n c hsplit hpre hc
    have htc : tickCreate s.event_create
        = (pre.map (fun e => (e.1, e.2 + 1)) ++ post, some n) := by
      rw [hsplit]
      exact tickCreate_fire_split pre post n c hpre hc
    exact tick_eq_fire s _ n htc

/-- Claim C6 witness: a firing tick at a concrete state — the entry before the
firing one is incremented, the one after is untouched, the destroy table is
untouched, exactly one add is executed. -/
theorem c6_tick_behaviour_witness :
    tick ⟨["z"], [("a", 0), ("b", 3), ("c", 7)], [("d", 1)]⟩
      = ⟨containerAdd ["z"] "b", [("a", 1), ("c", 7)], [("d", 1)]⟩ :=
  c6_tick_behaviour.2 ⟨["z"], [("a", 0), ("b", 3), ("c", 7)], [("d", 1)]⟩
    [("a", 0)] [("c", 7)] "b" 3 rfl (by decide) (by decide)

end MonitorDocker
